import Mathlib

/-!
Verification of the `sisparse` course-schedule scraper.

The Go package `sisparse` fetches a course landing page, follows the
"Rozvrh" (schedule) link, and parses the schedule HTML table into groups
of events.  This file gives a shallow embedding of that package:

* pure token decoders (`parseDay`, `parseTimeOfDay`,
  `parseDurationAndWeekParity`) translated from `sisparse.go`;
* the row parser `parseEvent` and the grouping loop of
  `parseCourseEvents`;
* an HTML node model (`HNode`) for the queries made through the
  `golang.org/x/net/html` and `yhat/scrape` collaborators;
* an effect-trace model `GetCourseEventsM` of the orchestrator
  `GetCourseEvents`, recording the HTTP requests and body closes it
  performs.

Go panics (out-of-range indexing, `panic(...)` calls) are modelled as
`none` / a `crash` outcome; returned Go errors as `Except.error`.
Machine integers are modelled as `Int` (no overflow is reachable for
the inputs the claims concern).  Wall-clock instants are modelled as
minutes, so `time.Time.Add` of `d` minutes becomes `+ d`.
-/

namespace Sisparse

/-- The `Event` struct of the Go source.  The Go field `Type` is named
`Typ` here because `Type` is a Lean keyword.  `TimeFrom`/`TimeTo` are
minutes (the Go code stores `time.Time` values parsed from `"15:04"`
layouts and adds minute durations). -/
structure Event where
  Typ : String
  Name : String
  Teacher : String
  Day : Nat
  TimeFrom : Int
  TimeTo : Int
  WeekParity : Nat
deriving DecidableEq, Repr

/-- The Go zero value `Event{}`, used as the "no event here" sentinel. -/
def emptyEvent : Event :=
  { Typ := "", Name := "", Teacher := "", Day := 0, TimeFrom := 0,
    TimeTo := 0, WeekParity := 0 }

/-- ASCII whitespace as recognised by Go's `unicode.IsSpace` /
`strings.Fields` / `strings.TrimSpace` (the non-ASCII space code points
do not occur in the fixed vocabularies involved). -/
def isSpace (c : Char) : Bool :=
  c = ' ' || c = '\t' || c = '\n' || c = '\r' || c = '\x0b' || c = '\x0c'

/-- Helper for `fields`: split a character list at whitespace runs,
accumulating the current (reversed) word. -/
def fieldsAux : List Char → List Char → List String
  | [], [] => []
  | [], cur => [String.mk cur.reverse]
  | c :: cs, cur =>
    if isSpace c then
      match cur with
      | [] => fieldsAux cs []
      | _ :: _ => String.mk cur.reverse :: fieldsAux cs []
    else fieldsAux cs (c :: cur)

/-- Go's `strings.Fields`: the whitespace-separated words of a string. -/
def fields (s : String) : List String :=
  fieldsAux s.toList []

/-- Decimal digits accumulator for `atoi`.  Fails on any non-digit. -/
def digitsVal : List Char → Nat → Option Nat
  | [], acc => some acc
  | c :: cs, acc =>
    if c.isDigit then digitsVal cs (acc * 10 + (c.toNat - 48)) else none

/-- Go's `strconv.Atoi`: optional sign followed by at least one decimal
digit (overflow is not modelled; the durations involved are small). -/
def atoi (s : String) : Option Int :=
  match s.toList with
  | [] => none
  | '-' :: cs =>
    match cs with
    | [] => none
    | _ :: _ => (digitsVal cs 0).map (fun n => -(n : Int))
  | '+' :: cs =>
    match cs with
    | [] => none
    | _ :: _ => (digitsVal cs 0).map (fun n => (n : Int))
  | cs => (digitsVal cs 0).map (fun n => (n : Int))

/-- The fixed day-abbreviation vocabulary of `parseDay`. -/
def days : List String := ["Po", "Út", "St", "Čt", "Pá"]

/-- The lookup loop of `parseDay`: first index at which the token
occurs. -/
def findDay : List String → Nat → String → Option Nat
  | [], _, _ => none
  | d :: ds, i, day => if d = day then some i else findDay ds (i + 1) day

/-- `parseDay` of the Go source: maps a two-letter day abbreviation to
its index 0..4; the Go `panic("Unknown day ...")` on any other token is
modelled as `none`. -/
def parseDay (day : String) : Option Nat :=
  findDay days 0 day

/-- Go's `time.Parse("15:04", s)`, as minutes since midnight: exactly
five characters `HH:MM`, two fixed-width digit pairs, hour < 24 and
minute < 60; anything else is an error. -/
def parseTimeOfDay (s : String) : Option Int :=
  match s.toList with
  | [h1, h2, c, m1, m2] =>
    if c = ':' && h1.isDigit && h2.isDigit && m1.isDigit && m2.isDigit then
      let hh := (h1.toNat - 48) * 10 + (h2.toNat - 48)
      let mm := (m1.toNat - 48) * 10 + (m2.toNat - 48)
      if hh < 24 && mm < 60 then some ((hh : Int) * 60 + mm) else none
    else none
  | _ => none

/-- `parseDurationAndWeekParity` of the Go source.  The token is split
into whitespace-separated fields; `w[0]` is parsed with `Atoi` (the Go
panic on an empty field list or a non-integer first field is `none`);
the parity is 0 with no second field, 1 when the second field is
exactly `"Liché"`, and 2 for any other second field. -/
def parseDurationAndWeekParity (dur : String) : Option (Int × Nat) :=
  match fields dur with
  | [] => none
  | w0 :: rest =>
    (atoi w0).map (fun d =>
      (d, match rest with
          | [] => 0
          | w1 :: _ => if w1 = "Liché" then (1 : Nat) else 2))

/-- `addEventScheduling` of the Go source: the day is decoded from the
first two runes of `daytime`, the start time from the runes after the
third one, the duration and parity from `dur`; `TimeTo` is
`TimeFrom + duration`.  Rune-slicing panics (`daytime` shorter than the
slices `[:2]` / `[3:]` need) and decode panics are `none`. -/
def addEventScheduling (e : Event) (daytime dur : String) : Option Event :=
  let rs := daytime.toList
  if rs.length < 2 then none
  else
    match parseDay (String.mk (rs.take 2)) with
    | none => none
    | some day =>
      if rs.length < 3 then none
      else
        match parseTimeOfDay (String.mk (rs.drop 3)) with
        | none => none
        | some timeFrom =>
          match parseDurationAndWeekParity dur with
          | none => none
          | some (d, parity) =>
            some { e with Day := day, TimeFrom := timeFrom,
                          TimeTo := timeFrom + d, WeekParity := parity }

/-! ## The HTML document model

The Go code queries parsed HTML (`golang.org/x/net/html`) through the
`yhat/scrape` helpers `Find`, `FindAll`, `Text` and `Attr`.  An
`HNode` is either an element (Go `html.Node` with a tag; its `Data` is
the tag name) or a text node (its `Data` is the text). -/

/-- A parsed HTML node: element with tag, attributes and children, or
text. -/
inductive HNode where
  | node (tag : String) (attrs : List (String × String)) (children : List HNode)
  | text (s : String)

/-- The `Data` field of a Go `html.Node`: the tag name of an element,
the content of a text node. -/
def HNode.dataOf : HNode → String
  | .node tag _ _ => tag
  | .text s => s

/-- The children of a node (text nodes have none). -/
def HNode.children : HNode → List HNode
  | .node _ _ cs => cs
  | .text _ => []

/-- Whether the node is an element with the given tag (Go
`n.DataAtom == atom.X`; text nodes have atom 0 and never match). -/
def HNode.isTag : HNode → String → Bool
  | .node tag _ _, t => tag = t
  | .text _, _ => false

/-- `scrape.Attr`: the value of the named attribute, `""` when absent
(also on text nodes, which carry no attributes). -/
def attrOf (n : HNode) (key : String) : String :=
  match n with
  | .text _ => ""
  | .node _ attrs _ =>
    match attrs.find? (fun p => p.1 = key) with
    | some p => p.2
    | none => ""

/-- Go's `strings.TrimSpace`. -/
def trimStr (s : String) : String :=
  String.mk (((s.toList.dropWhile isSpace).reverse.dropWhile isSpace).reverse)

mutual

/-- The `Data` of all text descendants of a node, in document order
(`scrape.FindAll` with a text-node matcher). -/
def textParts : HNode → List String
  | .text s => [s]
  | .node _ _ cs => textPartsList cs

/-- `textParts` over a list of sibling nodes. -/
def textPartsList : List HNode → List String
  | [] => []
  | c :: cs => textParts c ++ textPartsList cs

end

/-- Join with single spaces (the joiner of `scrape.Text`). -/
def joinSp : List String → String
  | [] => ""
  | [s] => s
  | s :: rest => s ++ " " ++ joinSp rest

/-- `scrape.Text`: every text part is trimmed, empty parts are dropped,
and the rest are joined with single spaces. -/
def textContent (n : HNode) : String :=
  joinSp (((textParts n).map trimStr).filter (fun s => s ≠ ""))

mutual

/-- `scrape.Find`: depth-first preorder search for the first node
satisfying the matcher (a text node has no children to descend into). -/
def find (p : HNode → Bool) : HNode → Option HNode
  | .text s => if p (.text s) then some (.text s) else none
  | .node t a cs =>
    if p (.node t a cs) then some (.node t a cs) else findList p cs

/-- `find` over a list of sibling subtrees. -/
def findList (p : HNode → Bool) : List HNode → Option HNode
  | [] => none
  | c :: cs =>
    match find p c with
    | some r => some r
    | none => findList p cs

end

/-! ## Row parsing and grouping (`parseEvent`, `parseCourseEvents`) -/

/-- The column texts of a table row, as collected at the top of
`parseEvent`: direct children whose `Data` is not all whitespace, each
rendered with `scrape.Text`. -/
def extractCols (row : HNode) : List String :=
  ((HNode.children row).filter (fun c => trimStr (HNode.dataOf c) ≠ "")).map
    textContent

/-- The body of Go's `parseEvent`, over the collected column list: the
event's type, name and teacher are columns 1, 2 and 3 (an out-of-range
index is a panic, `none`); an empty teacher yields the sentinel
`emptyEvent`; otherwise columns 4 and 6 feed `addEventScheduling`. -/
def parseEvent (cols : List String) : Option Event :=
  match cols[1]?, cols[2]?, cols[3]? with
  | some ty, some nm, some te =>
    if te = "" then some emptyEvent
    else
      match cols[4]?, cols[6]? with
      | some daytime, some dur =>
        addEventScheduling
          { emptyEvent with Typ := ty, Name := nm, Teacher := te } daytime dur
      | _, _ => none
  | _, _, _ => none

/-- `parseEvent` on an HTML row node. -/
def parseEventRow (row : HNode) : Option Event :=
  parseEvent (extractCols row)

/-- The loop state of `parseCourseEvents`: the groups flushed so far
(`res`) and the group being accumulated (`group`). -/
structure GState where
  res : List (List Event)
  group : List Event
deriving DecidableEq, Repr

/-- One iteration of the `parseCourseEvents` loop on an already-parsed
event.  The sentinel is skipped; a non-empty `Name` flushes the current
group (if any) and starts a new one; otherwise `Name` and `Teacher` are
back-filled from `group[0]` — whose access panics (`none`) when the
accumulator is empty. -/
def groupStep (st : GState) (event : Event) : Option GState :=
  if event = emptyEvent then some st
  else if event.Name ≠ "" then
    some { res := if st.group.length > 0 then st.res ++ [st.group] else st.res,
           group := [event] }
  else
    match st.group with
    | [] => none
    | g0 :: _ =>
      some { st with
              group := st.group ++
                [{ event with Name := g0.Name, Teacher := g0.Teacher }] }

/-- The final flush of `parseCourseEvents`: append the remaining group
when it is non-empty. -/
def flushG (st : GState) : List (List Event) :=
  if st.group.length > 0 then st.res ++ [st.group] else st.res

/-- The grouping loop of `parseCourseEvents` over the sequence of
parsed events. -/
def groupEvents (events : List Event) : Option (List (List Event)) := do
  let st ← events.foldlM groupStep { res := [], group := [] }
  pure (flushG st)

/-- The row matcher of `parseCourseEvents`: a `tr` element whose
grandparent exists and carries `id="table1"`, excluding rows with
`class="head1"`.  The grandparent is supplied by the traversal. -/
def trMatcher (gp : Option HNode) (n : HNode) : Bool :=
  HNode.isTag n "tr" &&
    (match gp with
     | some g => attrOf g "id" = "table1" && attrOf n "class" ≠ "head1"
     | none => false)

mutual

/-- `scrape.FindAll` restricted to the row matcher: depth-first
preorder collection, threading each node's parent and grandparent (a
text node never matches `trMatcher` and has no children). -/
def findRows (gp p : Option HNode) : HNode → List HNode
  | .text s => if trMatcher gp (.text s) then [.text s] else []
  | .node t a cs =>
    (if trMatcher gp (.node t a cs) then [.node t a cs] else []) ++
      findRowsList p (some (.node t a cs)) cs

/-- `findRows` over a list of sibling subtrees (all sharing parent and
grandparent). -/
def findRowsList (gp p : Option HNode) : List HNode → List HNode
  | [] => []
  | c :: cs => findRows gp p c ++ findRowsList gp p cs

end

/-- The matching rows of a schedule document (the root has no parent
or grandparent, as after Go's `html.Parse`). -/
def findTableRows (doc : HNode) : List HNode :=
  findRows none none doc

/-- `parseCourseEvents` of the Go source on a parsed schedule page: an
absent table yields the empty result; otherwise each row is parsed and
fed to the grouping loop, and the last group is flushed.  (The Go loop
interleaves `parseEvent` with grouping; as any panic on any row makes
the whole call `none`, parsing the rows first is equivalent in the
`Option` model.) -/
def parseCourseEventsDoc (doc : HNode) : Option (List (List Event)) :=
  let rows := findTableRows doc
  if rows.length = 0 then some []
  else do
    let events ← rows.mapM parseEventRow
    groupEvents events

/-! ## The retrieval orchestrator (`GetCourseEvents`)

`GetCourseEvents` performs two `http.Get` calls, parses each response
body as HTML, and never calls `Close` on either body.  The HTTP client,
the HTML parser and `net/url` resolution are external collaborators:
the model's `World` maps a URL directly to a transport failure or a
parsed document, and carries the `url.ResolveReference` function
abstractly.  The model returns, alongside the outcome, the trace of
resource actions the code performs, so that request counts and body
closes can be stated.  `sisparse.go` contains no `Close` call, so no
`Action.closeBody` is ever emitted. -/

/-- The fixed URL template of the Go source (`sisUrl`), with its `%s`
placeholder. -/
def sisUrl : String :=
  "https://is.cuni.cz/studium/predmety/index.php?do=predmet&kod=%s&skr=2018&sem=1"

/-- `fmt.Sprintf(sisUrl, courseCode)`: the template with `%s` replaced
by the course code. -/
def sisUrlFor (courseCode : String) : String :=
  "https://is.cuni.cz/studium/predmety/index.php?do=predmet&kod=" ++
    courseCode ++ "&skr=2018&sem=1"

/-- The anchor matcher of `getRelativeScheduleUrl`: an `a` element
whose `scrape.Text` is exactly `"Rozvrh"`. -/
def isScheduleLink (n : HNode) : Bool :=
  HNode.isTag n "a" && textContent n = "Rozvrh"

/-- `getRelativeScheduleUrl` on a parsed landing page: the `href` of
the first matching anchor, or the Go error value when none exists. -/
def getRelativeScheduleUrl (root : HNode) : Except String String :=
  match find isScheduleLink root with
  | none => .error "Couldn't find schedule URL"
  | some n => .ok (attrOf n "href")

/-- The result of one `http.Get` followed by `html.Parse`: a transport
error, or the parsed document. -/
inductive FetchResult where
  | ok (doc : HNode)
  | err (msg : String)

/-- The external collaborators of the orchestrator: the HTTP
client-plus-HTML-parser, and `net/url`'s `ResolveReference` (base,
relative ↦ absolute). -/
structure World where
  fetch : String → FetchResult
  resolve : String → String → String

/-- Resource actions the orchestrator can perform on an HTTP
response.  The source never performs `closeBody`. -/
inductive Action where
  | httpGet (url : String)
  | closeBody (url : String)
deriving DecidableEq, Repr

/-- Whether an action is a body close. -/
def Action.isClose : Action → Bool
  | .closeBody _ => true
  | .httpGet _ => false

/-- Whether an action is an HTTP request. -/
def Action.isGet : Action → Bool
  | .httpGet _ => true
  | .closeBody _ => false

/-- The outcome of `GetCourseEvents`: a returned value, a returned
error, or a panic inside parsing (`crash`). -/
inductive Outcome where
  | ok (groups : List (List Event))
  | err (msg : String)
  | crash
deriving Repr

/-- `GetCourseEvents` of the Go source, with its action trace: fetch
the landing page (propagating transport errors), locate the schedule
link (propagating its error), resolve it against the raw `sisUrl`
template, fetch the schedule page (propagating transport errors), and
return `parseCourseEvents` of it.  Neither body is ever closed. -/
def GetCourseEventsM (w : World) (courseCode : String) :
    Outcome × List Action :=
  let url1 := sisUrlFor courseCode
  match w.fetch url1 with
  | .err e => (.err e, [.httpGet url1])
  | .ok doc1 =>
    match getRelativeScheduleUrl doc1 with
    | .error e => (.err e, [.httpGet url1])
    | .ok rel =>
      let url2 := w.resolve sisUrl rel
      match w.fetch url2 with
      | .err e => (.err e, [.httpGet url1, .httpGet url2])
      | .ok doc2 =>
        match parseCourseEventsDoc doc2 with
        | some gs => (.ok gs, [.httpGet url1, .httpGet url2])
        | none => (.crash, [.httpGet url1, .httpGet url2])

/-! ## Theorems -/

/-- `findDay` returns `none` on any token outside its list. -/
theorem findDay_eq_none_of_not_mem (l : List String) (i : Nat) (day : String)
    (h : day ∉ l) : findDay l i day = none := by
  induction l generalizing i with
  | nil => rfl
  | cons d ds ih =>
    simp only [List.mem_cons, not_or] at h
    unfold findDay
    rw [if_neg (fun he => h.1 he.symm)]
    exact ih (i + 1) h.2

/-- C3: `parseDay` maps the five fixed two-letter day abbreviations, in
source order, to 0, 1, 2, 3, 4, and fails (the Go unknown-day panic,
modelled as `none`) on every token outside that vocabulary. -/
theorem day_decode :
    parseDay "Po" = some 0 ∧ parseDay "Út" = some 1 ∧
    parseDay "St" = some 2 ∧ parseDay "Čt" = some 3 ∧
    parseDay "Pá" = some 4 ∧
    ∀ day : String, day ∉ days → parseDay day = none := by
  refine ⟨by decide, by decide, by decide, by decide, by decide, ?_⟩
  intro day h
  exact findDay_eq_none_of_not_mem days 0 day h

/-- Witness for `day_decode`: a concrete token outside the vocabulary
fails. -/
theorem day_decode_witness : "So" ∉ days ∧ parseDay "So" = none :=
  ⟨by decide, day_decode.2.2.2.2.2 "So" (by decide)⟩

/-- C2: `parseDurationAndWeekParity` splits the token into whitespace
fields and maps the `Atoi` of the first field to a pair with the
parity computed from the second field alone (absent ↦ 0, the odd-weeks
marker `"Liché"` ↦ 1, anything else ↦ 2); it fails exactly when `Atoi`
fails, and the three round-trip examples decode as stated. -/
theorem duration_parity_decode :
    (∀ (dur w0 : String) (rest : List String), fields dur = w0 :: rest →
        parseDurationAndWeekParity dur =
          (atoi w0).map (fun d =>
            (d, match rest with
                | [] => (0 : Nat)
                | w1 :: _ => if w1 = "Liché" then 1 else 2))) ∧
    parseDurationAndWeekParity "90" = some (90, 0) ∧
    parseDurationAndWeekParity "240 Liché týdny (sudé kalendářní)" =
      some (240, 1) ∧
    parseDurationAndWeekParity "240 Jinak" = some (240, 2) ∧
    parseDurationAndWeekParity "abc" = none := by
  refine ⟨?_, by decide, by decide, by decide, by decide⟩
  intro dur w0 rest hf
  unfold parseDurationAndWeekParity
  rw [hf]

/-- Witness for `duration_parity_decode`: the general field-splitting
part applied to a concrete token with an unrecognised second field. -/
theorem duration_parity_decode_witness :
    fields "120 Sudé" = ["120", "Sudé"] ∧
    parseDurationAndWeekParity "120 Sudé" =
      (atoi "120").map (fun d =>
        (d, match ["Sudé"] with
            | [] => (0 : Nat)
            | w1 :: _ => if w1 = "Liché" then 1 else 2)) :=
  ⟨by decide, duration_parity_decode.1 "120 Sudé" "120" ["Sudé"] (by decide)⟩

/-- C4: a row whose teacher column (index 3) is empty parses to the
sentinel `emptyEvent`, and the grouping loop leaves its state — both
the flushed groups and the open group — completely unchanged on the
sentinel. -/
theorem empty_teacher_sentinel_skip :
    (∀ cols : List String, cols[3]? = some "" →
        parseEvent cols = some emptyEvent) ∧
    (∀ st : GState, groupStep st emptyEvent = some st) := by
  constructor
  · intro cols h3
    have hlen : 3 < cols.length := by
      by_contra hc
      rw [List.getElem?_eq_none (by omega)] at h3
      exact Option.noConfusion h3
    obtain ⟨v1, h1⟩ : ∃ v, cols[1]? = some v :=
      ⟨_, List.getElem?_eq_getElem (by omega)⟩
    obtain ⟨v2, h2⟩ : ∃ v, cols[2]? = some v :=
      ⟨_, List.getElem?_eq_getElem (by omega)⟩
    simp [parseEvent, h1, h2, h3]
  · intro st
    simp [groupStep]

/-- Witness for `empty_teacher_sentinel_skip`, on a concrete row and a
concrete grouper state. -/
theorem empty_teacher_sentinel_skip_witness :
    parseEvent ["x", "lecture", "Algebra", ""] = some emptyEvent ∧
    groupStep { res := [[emptyEvent]], group := [emptyEvent] } emptyEvent =
      some { res := [[emptyEvent]], group := [emptyEvent] } :=
  ⟨empty_teacher_sentinel_skip.1 ["x", "lecture", "Algebra", ""] (by decide),
   empty_teacher_sentinel_skip.2 { res := [[emptyEvent]], group := [emptyEvent] }⟩

/-- C10: `parseEvent` indexes the column list without bounds checks:
fewer than 4 columns faults (the Go out-of-range panic, `none`), and a
row with a non-empty teacher but fewer than 7 columns faults on the
day-time/duration columns. -/
theorem parse_event_bounds_fault :
    (∀ cols : List String, cols.length < 4 → parseEvent cols = none) ∧
    (∀ (cols : List String) (t : String), cols[3]? = some t → t ≠ "" →
        cols.length < 7 → parseEvent cols = none) := by
  constructor
  · intro cols h
    have h3 : cols[3]? = none := List.getElem?_eq_none (by omega)
    cases h1 : cols[1]? <;> cases h2 : cols[2]? <;>
      simp [parseEvent, h1, h2, h3]
  · intro cols t h3 ht h7
    have hlen : 3 < cols.length := by
      by_contra hc
      rw [List.getElem?_eq_none (by omega)] at h3
      exact Option.noConfusion h3
    have h6 : cols[6]? = none := List.getElem?_eq_none (by omega)
    obtain ⟨v1, h1⟩ : ∃ v, cols[1]? = some v :=
      ⟨_, List.getElem?_eq_getElem (by omega)⟩
    obtain ⟨v2, h2⟩ : ∃ v, cols[2]? = some v :=
      ⟨_, List.getElem?_eq_getElem (by omega)⟩
    cases h4 : cols[4]? <;> simp [parseEvent, h1, h2, h3, h4, h6, ht]

/-- Witness for `parse_event_bounds_fault`: a 3-column row and a
6-column row with a non-empty teacher both fault. -/
theorem parse_event_bounds_fault_witness :
    parseEvent ["x", "lecture", "Algebra"] = none ∧
    parseEvent ["x", "lecture", "Algebra", "Novák", "Po 08:00", "r"] = none :=
  ⟨parse_event_bounds_fault.1 ["x", "lecture", "Algebra"] (by decide),
   parse_event_bounds_fault.2 ["x", "lecture", "Algebra", "Novák", "Po 08:00", "r"]
     "Novák" (by decide) (by decide) (by decide)⟩

/-- C6: whenever `addEventScheduling` succeeds, the populated event
satisfies `TimeTo = TimeFrom + d` for the decoded duration `d`; and
concretely, a start decoded from `"08:00"` (480 minutes) with a decoded
duration of 90 minutes ends at 570 minutes, which is the decoding of
`"09:30"`. -/
theorem time_to_eq_time_from_plus_duration :
    (∀ (e e2 : Event) (daytime dur : String) (d : Int) (p : Nat),
        parseDurationAndWeekParity dur = some (d, p) →
        addEventScheduling e daytime dur = some e2 →
        e2.TimeTo = e2.TimeFrom + d) ∧
    parseTimeOfDay "08:00" = some 480 ∧
    (addEventScheduling emptyEvent "Po 08:00" "90").map Event.TimeTo =
      some 570 ∧
    parseTimeOfDay "09:30" = some 570 := by
  refine ⟨?_, by decide, by decide, by decide⟩
  intro e e2 daytime dur d p hdur hadd
  simp only [addEventScheduling] at hadd
  split at hadd
  · exact Option.noConfusion hadd
  · split at hadd
    · exact Option.noConfusion hadd
    · split at hadd
      · exact Option.noConfusion hadd
      · split at hadd
        · exact Option.noConfusion hadd
        · rename_i heq
          split at hadd
          · exact Option.noConfusion hadd
          · rename_i heq2
            rw [hdur] at heq2
            obtain ⟨rfl, rfl⟩ : _ ∧ _ :=
              Prod.mk.injEq .. ▸ (Option.some.inj heq2)
            obtain rfl := Option.some.inj hadd
            simp

/-- Witness for `time_to_eq_time_from_plus_duration`: the general part
applied to the concrete `"Po 08:00"` / `"90"` row data. -/
theorem time_to_eq_time_from_plus_duration_witness :
    ∃ e2 : Event,
      addEventScheduling emptyEvent "Po 08:00" "90" = some e2 ∧
      e2.TimeTo = e2.TimeFrom + 90 := by
  refine ⟨{ emptyEvent with Day := 0, TimeFrom := 480, TimeTo := 570 }, by decide, ?_⟩
  exact time_to_eq_time_from_plus_duration.1 emptyEvent _ "Po 08:00" "90" 90 0
    (by decide) (by decide)

/-- Back-filling a continuation event from the head of the open group. -/
def backfill (h0 : Event) (x : Event) : Event :=
  { x with Name := h0.Name, Teacher := h0.Teacher }

/-- Folding the grouping step over a run of continuation events (all
non-sentinel, all with empty `Name`) extends the open group by their
back-filled copies and flushes nothing. -/
theorem foldlM_groupStep_cont (l : List Event) (res : List (List Event))
    (h0 : Event) (t : List Event)
    (hl : ∀ x ∈ l, x ≠ emptyEvent ∧ x.Name = "") :
    List.foldlM groupStep { res := res, group := h0 :: t } l =
      some { res := res, group := h0 :: (t ++ l.map (backfill h0)) } := by
  induction l generalizing t with
  | nil => simp
  | cons x xs ih =>
    obtain ⟨hx, hxn⟩ := hl x (by simp)
    have hstep : groupStep { res := res, group := h0 :: t } x =
        some { res := res, group := h0 :: (t ++ [backfill h0 x]) } := by
      simp [groupStep, hx, hxn, backfill]
    rw [List.foldlM_cons, hstep]
    have ih2 := ih (t ++ [backfill h0 x]) (fun y hy => hl y (by simp [hy]))
    simpa [List.append_assoc] using ih2

/-- C1: a run of rows opening with a named, teacher-carrying event and
continuing with unnamed (non-sentinel) events is grouped by the
`parseCourseEvents` loop into exactly one group that contains one
member per event, each carrying the run's name and the first event's
teacher (both non-empty). -/
theorem grouper_single_run (e : Event) (rest : List Event)
    (hname : e.Name ≠ "") (hteach : e.Teacher ≠ "")
    (hrest : ∀ x ∈ rest, x ≠ emptyEvent ∧ x.Name = "") :
    ∃ g : List Event,
      groupEvents (e :: rest) = some [g] ∧
      g.length = rest.length + 1 ∧
      ∀ x ∈ g, x.Name = e.Name ∧ x.Teacher = e.Teacher ∧
        x.Name ≠ "" ∧ x.Teacher ≠ "" := by
  refine ⟨e :: rest.map (backfill e), ?_, by simp, ?_⟩
  · have he : e ≠ emptyEvent := fun h => hname (by rw [h]; rfl)
    have hstep : groupStep { res := [], group := [] } e =
        some { res := [], group := [e] } := by
      simp [groupStep, he, hname]
    unfold groupEvents
    rw [List.foldlM_cons, hstep]
    have hfold := foldlM_groupStep_cont rest [] e [] hrest
    simp only [List.nil_append] at hfold
    simp [hfold, flushG]
  · intro x hx
    rcases List.mem_cons.1 hx with rfl | hx2
    · exact ⟨rfl, rfl, hname, hteach⟩
    · obtain ⟨y, _, rfl⟩ := List.mem_map.1 hx2
      exact ⟨rfl, rfl, hname, hteach⟩

/-- A concrete already-scheduled group-start event. -/
def evA : Event :=
  { Typ := "lecture", Name := "Algebra", Teacher := "Novák", Day := 0,
    TimeFrom := 480, TimeTo := 570, WeekParity := 0 }

/-- A concrete continuation event (empty `Name`, non-sentinel). -/
def evB : Event :=
  { Typ := "practical", Name := "", Teacher := "Malá", Day := 1,
    TimeFrom := 640, TimeTo := 730, WeekParity := 0 }

/-- Witness for `grouper_single_run`: a concrete two-event run. -/
theorem grouper_single_run_witness :
    ∃ g : List Event,
      groupEvents [evA, evB] = some [g] ∧
      g.length = 2 ∧
      ∀ x ∈ g, x.Name = evA.Name ∧ x.Teacher = evA.Teacher ∧
        x.Name ≠ "" ∧ x.Teacher ≠ "" :=
  grouper_single_run evA [evB] (by decide) (by decide) (by decide)

/-- Once the open group is non-empty, the grouping loop can never fault:
every step keeps the group non-empty. -/
theorem foldlM_groupStep_isSome (l : List Event) (st : GState)
    (h : st.group ≠ []) :
    ∃ st2, List.foldlM groupStep st l = some st2 ∧ st2.group ≠ [] := by
  induction l generalizing st with
  | nil => exact ⟨st, by simp, h⟩
  | cons x xs ih =>
    by_cases hx : x = emptyEvent
    · have hstep : groupStep st x = some st := by simp [groupStep, hx]
      rw [List.foldlM_cons, hstep]
      simpa using ih st h
    · by_cases hn : x.Name = ""
      · obtain ⟨g0, t, hg⟩ : ∃ g0 t, st.group = g0 :: t := by
          cases hgr : st.group with
          | nil => exact absurd hgr h
          | cons a b => exact ⟨a, b, rfl⟩
        have hstep : groupStep st x =
            some { st with group := st.group ++ [backfill g0 x] } := by
          simp [groupStep, hx, hn, hg, backfill]
        rw [List.foldlM_cons, hstep]
        have : ({ st with group := st.group ++ [backfill g0 x] } : GState).group ≠ [] := by
          simp [hg]
        simpa using ih _ this
      · have hstep : groupStep st x =
            some { res := if st.group.length > 0 then st.res ++ [st.group]
                          else st.res,
                   group := [x] } := by
          simp [groupStep, hx, hn]
        rw [List.foldlM_cons, hstep]
        simpa using ih _ (by simp)

/-- The grouping loop, started with an empty open group, never faults
on an event list in which every continuation event is preceded by an
earlier named event. -/
theorem foldlM_groupStep_ok (l : List Event) :
    (∀ pre x suf, l = pre ++ x :: suf → x ≠ emptyEvent → x.Name = "" →
        ∃ y ∈ pre, y.Name ≠ "") →
    ∀ res : List (List Event),
      (List.foldlM groupStep { res := res, group := [] } l).isSome := by
  induction l with
  | nil => intro _ res; simp
  | cons e l2 ih =>
    intro h res
    by_cases he : e = emptyEvent
    · have hstep : groupStep { res := res, group := [] } e =
          some { res := res, group := [] } := by simp [groupStep, he]
      rw [List.foldlM_cons, hstep]
      have h2 : ∀ pre x suf, l2 = pre ++ x :: suf → x ≠ emptyEvent →
          x.Name = "" → ∃ y ∈ pre, y.Name ≠ "" := by
        intro pre x suf hl hx hn
        obtain ⟨y, hy, hyn⟩ := h (e :: pre) x suf (by rw [hl]; rfl) hx hn
        rcases List.mem_cons.1 hy with rfl | hy2
        · exact absurd (show y.Name = "" by rw [he]; rfl) hyn
        · exact ⟨y, hy2, hyn⟩
      simpa using ih h2 res
    · by_cases hn : e.Name = ""
      · obtain ⟨y, hy, _⟩ := h [] e l2 rfl he hn
        exact absurd hy (List.not_mem_nil y)
      · have hstep : groupStep { res := res, group := [] } e =
            some { res := res, group := [e] } := by simp [groupStep, he, hn]
        rw [List.foldlM_cons, hstep]
        obtain ⟨st2, hst2, _⟩ :=
          foldlM_groupStep_isSome l2 { res := res, group := [e] } (by simp)
        simp [hst2]

/-- C7: under the precondition that every continuation event (unnamed,
non-sentinel) is preceded by an earlier named event, the
`parseCourseEvents` loop's `group[0]` access is always in bounds and
grouping succeeds; without the precondition the very same access
faults (the Go out-of-range panic, `none`). -/
theorem grouper_precondition_safe :
    (∀ events : List Event,
        (∀ pre x suf, events = pre ++ x :: suf → x ≠ emptyEvent →
            x.Name = "" → ∃ y ∈ pre, y.Name ≠ "") →
        (groupEvents events).isSome) ∧
    groupEvents [{ emptyEvent with Teacher := "Novák" }] = none := by
  constructor
  · intro events h
    unfold groupEvents
    obtain ⟨st, hst⟩ :=
      Option.isSome_iff_exists.1 (foldlM_groupStep_ok events h [])
    rw [hst]
    rfl
  · decide

/-- Witness for `grouper_precondition_safe`: the safety part applied to
a concrete run whose continuation event follows a named event. -/
theorem grouper_precondition_safe_witness :
    (groupEvents [evA, evB]).isSome := by
  refine grouper_precondition_safe.1 [evA, evB] ?_
  rintro (_ | ⟨y1, (_ | ⟨y2, pre⟩)⟩) x suf heq hx hn
  · have hxe : evA = x := by injection heq
    rw [← hxe] at hn
    exact absurd hn (by decide)
  · have h1 : evA = y1 := by injection heq
    exact ⟨y1, by simp, by rw [← h1]; decide⟩
  · have := congrArg List.length heq
    simp at this

/-- C5: when both fetches succeed and the schedule link is found but
the schedule page contains no matching event-table row, the retrieval
returns the empty sequence of groups as a valid (non-error,
non-crashing) result. -/
theorem absent_table_empty_result (w : World) (code : String)
    (doc1 doc2 : HNode) (rel : String)
    (h1 : w.fetch (sisUrlFor code) = .ok doc1)
    (h2 : getRelativeScheduleUrl doc1 = .ok rel)
    (h3 : w.fetch (w.resolve sisUrl rel) = .ok doc2)
    (h4 : findTableRows doc2 = []) :
    (GetCourseEventsM w code).1 = .ok [] := by
  have hparse : parseCourseEventsDoc doc2 = some [] := by
    unfold parseCourseEventsDoc
    rw [h4]
    rfl
  simp only [GetCourseEventsM, h1, h2, h3, hparse]

/-- A landing page whose only anchor is the schedule link. -/
def landingDoc : HNode :=
  .node "html" []
    [.node "body" []
      [.node "a" [("href", "sched")] [.text "Rozvrh"]]]

/-- A schedule page carrying an error message instead of a table. -/
def noTableDoc : HNode :=
  .node "html" [] [.node "p" [] [.text "Chyba"]]

/-- A world serving the landing page for the course URL and the
no-table page for everything else, with trivial URL resolution. -/
def w5 : World :=
  { fetch := fun url =>
      if url = sisUrlFor "KOD" then .ok landingDoc else .ok noTableDoc,
    resolve := fun _ rel => rel }

/-- Witness for `absent_table_empty_result`, on the concrete world
`w5`. -/
theorem absent_table_empty_result_witness :
    (GetCourseEventsM w5 "KOD").1 = .ok [] :=
  absent_table_empty_result w5 "KOD" landingDoc noTableDoc "sched"
    (by simp [w5]) rfl
    (by simp only [w5]; rw [if_neg (by decide)]) rfl

/-- C8: when the fetched landing page has no anchor whose visible text
is exactly `"Rozvrh"`, the retrieval returns the
schedule-link-not-found error and its request trace holds only the
landing-page fetch — the schedule page is never requested. -/
theorem missing_link_no_second_fetch (w : World) (code : String)
    (doc1 : HNode)
    (h1 : w.fetch (sisUrlFor code) = .ok doc1)
    (h2 : find isScheduleLink doc1 = none) :
    (GetCourseEventsM w code).1 = .err "Couldn't find schedule URL" ∧
    (GetCourseEventsM w code).2 = [.httpGet (sisUrlFor code)] := by
  have hrel : getRelativeScheduleUrl doc1 =
      .error "Couldn't find schedule URL" := by
    unfold getRelativeScheduleUrl
    rw [h2]
  constructor <;> simp only [GetCourseEventsM, h1, hrel]

/-- A landing page with no anchor at all. -/
def noLinkDoc : HNode :=
  .node "html" [] [.node "body" [] [.text "Stránka bez odkazu"]]

/-- A world whose every page is the link-less landing page. -/
def w8 : World :=
  { fetch := fun _ => .ok noLinkDoc, resolve := fun _ rel => rel }

/-- Witness for `missing_link_no_second_fetch`, on the concrete world
`w8`. -/
theorem missing_link_no_second_fetch_witness :
    (GetCourseEventsM w8 "KOD").1 = .err "Couldn't find schedule URL" ∧
    (GetCourseEventsM w8 "KOD").2 = [.httpGet (sisUrlFor "KOD")] :=
  missing_link_no_second_fetch w8 "KOD" noLinkDoc rfl rfl

/-- C9 (refuted): the retrieval never performs a single body close on
any path — the source contains no `Close` call — even on a run that
acquires both response bodies (two requests in the trace). -/
theorem bodies_never_closed :
    (∀ (w : World) (code : String),
        ((GetCourseEventsM w code).2.filter Action.isClose) = []) ∧
    (GetCourseEventsM w5 "KOD").2 =
      [.httpGet (sisUrlFor "KOD"), .httpGet "sched"] := by
  constructor
  · intro w code
    unfold GetCourseEventsM
    dsimp only
    split
    · rfl
    · split
      · rfl
      · split
        · rfl
        · split <;> rfl
  · simp only [GetCourseEventsM, w5]
    rfl

end Sisparse
